import Mathlib

/-!
Verification development for the Paper drawing-surface engine.

The definitions below are a shallow embedding of the repository's core
modules: the document state manager (`src/state.ts`), the tool state
machine (`src/tools.ts`) and the input normalizer (`src/lib/input.ts`).
Numbers are embedded as rationals (JS numbers on the inputs we reason
about behave as exact rationals), strings as `String`, and the external
effects (Date.now timestamps, localStorage persistence, the debounced
auto-save timer and the onChange notification) are omitted: they do not
feed back into any of the state transitions modelled here.  The random
`generateId` is modelled as an injective supply indexed by a counter
that each manager threads through its operations.
-/

namespace Paper

/-- Embeds `generateId` (`src/state.ts` / `src/tools.ts`): a fresh-id
supply, modelled as an injective function of a threaded counter. -/
def generateId (n : Nat) : String := "id" ++ toString n

/-- The literal 0.5 of the source, given in lowest terms so that the
kernel can evaluate comparisons on it. -/
def ratHalf : ℚ := ⟨1, 2, by decide, by decide⟩

/-- The literal 0.6 of the source (the per-character width factor of
text bounds), in lowest terms. -/
def ratPointSix : ℚ := ⟨3, 5, by decide, by decide⟩

/-- A point, `{x, y, pressure}` (`src/types.ts`). -/
structure Point where
  x : ℚ
  y : ℚ
  pressure : ℚ
deriving DecidableEq, Repr

/-- An axis-aligned rectangle `{x, y, width, height}` (`Rect` in
`src/types.ts`). -/
structure Rect where
  x : ℚ
  y : ℚ
  width : ℚ
  height : ℚ
deriving DecidableEq, Repr

/-- A freehand stroke (`Stroke` in `src/types.ts`). -/
structure Stroke where
  id : String
  points : List Point
  color : String
  width : ℚ
deriving DecidableEq, Repr

/-- A rectangle element (`Rectangle` in `src/types.ts`). -/
structure Rectangle where
  id : String
  x : ℚ
  y : ℚ
  width : ℚ
  height : ℚ
  color : String
  strokeWidth : ℚ
  filled : Bool
deriving DecidableEq, Repr

/-- A text element (`TextElement` in `src/types.ts`). -/
structure TextElement where
  id : String
  x : ℚ
  y : ℚ
  content : String
  fontSize : ℚ
  color : String
  fontFamily : String
deriving DecidableEq, Repr

/-- The element union.  The source discriminates structurally (`"points" in
el`, then `"width" in el && "height" in el && !("content" in el)`, then
`"content" in el`); on well-formed elements this is exactly the tagged
union below, matched in the same order. -/
inductive PaperElement where
  | stroke (s : Stroke)
  | rectEl (r : Rectangle)
  | textEl (t : TextElement)
deriving DecidableEq, Repr

/-- The `id` field every element variant carries. -/
def PaperElement.elemId : PaperElement → String
  | .stroke s => s.id
  | .rectEl r => r.id
  | .textEl t => t.id

/-- Grid settings (`GridSettings` in `src/types.ts`). -/
structure GridSettings where
  type : String
  spacing : ℚ
  color : String
  opacity : ℚ
deriving DecidableEq, Repr

/-- `Partial<GridSettings>`: each field optionally present. -/
structure PartialGridSettings where
  type : Option String := none
  spacing : Option ℚ := none
  color : Option String := none
  opacity : Option ℚ := none
deriving DecidableEq, Repr

/-- The state owned by `createStateManager` (`src/state.ts`): the live
element list, grid settings, the history of element-list snapshots with
its current index, and the counter backing the `generateId` supply. -/
structure MState where
  elements : List PaperElement
  gridSettings : GridSettings
  hist : List (List PaperElement)
  idx : Nat
  nextId : Nat
deriving DecidableEq, Repr

/-- The default grid of a fresh paper (`src/state.ts`, lines 41-46). -/
def defaultGrid : GridSettings :=
  { type := "square", spacing := 50, color := "#cccccc", opacity := ratHalf }

/-- The fresh state of `createStateManager`: empty elements,
`history = [[]]`, `historyIndex = 0`. -/
def initMState : MState :=
  { elements := [], gridSettings := defaultGrid, hist := [[]], idx := 0, nextId := 0 }

/-- `maxHistory` (`src/state.ts`, line 53). -/
def maxHistory : Nat := 50

/-- `pushHistory` (`src/state.ts`, lines 198-206): truncate redo entries
(`history.slice(0, historyIndex + 1)`), append a snapshot of the current
elements, and on overflow evict the oldest entry (`history.shift()`)
without advancing the index. -/
def pushHistory (st : MState) : MState :=
  let h := st.hist.take (st.idx + 1) ++ [st.elements]
  if h.length > maxHistory then
    { st with hist := h.drop 1 }
  else
    { st with hist := h, idx := st.idx + 1 }

/-- `undo` (`src/state.ts`, lines 208-217). -/
def undo (st : MState) : Bool × MState :=
  if st.idx > 0 then
    (true, { st with idx := st.idx - 1, elements := st.hist.getD (st.idx - 1) [] })
  else
    (false, st)

/-- `redo` (`src/state.ts`, lines 219-228). -/
def redo (st : MState) : Bool × MState :=
  if st.idx < st.hist.length - 1 then
    (true, { st with idx := st.idx + 1, elements := st.hist.getD (st.idx + 1) [] })
  else
    (false, st)

/-- `canUndo` (`src/state.ts`, lines 230-232). -/
def canUndo (st : MState) : Bool := st.idx > 0

/-- `canRedo` (`src/state.ts`, lines 234-236). -/
def canRedo (st : MState) : Bool := st.idx < st.hist.length - 1

/-- `addElement` (`src/state.ts`, lines 69-75). -/
def addElement (e : PaperElement) (st : MState) : MState :=
  pushHistory { st with elements := st.elements ++ [e] }

/-- `removeElement` (`src/state.ts`, lines 77-83). -/
def removeElement (i : String) (st : MState) : MState :=
  pushHistory { st with elements := st.elements.filter (fun el => el.elemId ≠ i) }

/-- `clearElements` (`src/state.ts`, lines 183-189). -/
def clearElements (st : MState) : MState :=
  pushHistory { st with elements := [] }

/-- `setGridSettings` (`src/state.ts`, lines 191-196): the spread
`{ ...paper.gridSettings, ...settings }` — fields present in the partial
override, absent fields are retained.  No history push. -/
def setGridSettings (p : PartialGridSettings) (st : MState) : MState :=
  { st with gridSettings :=
      { type := p.type.getD st.gridSettings.type
        spacing := p.spacing.getD st.gridSettings.spacing
        color := p.color.getD st.gridSettings.color
        opacity := p.opacity.getD st.gridSettings.opacity } }

/-- `pointInRect` (`src/state.ts`, lines 85-92): membership inclusive of
the rectangle's edges. -/
def pointInRect (p : Point) (r : Rect) : Bool :=
  decide (p.x ≥ r.x) && decide (p.x ≤ r.x + r.width) &&
  decide (p.y ≥ r.y) && decide (p.y ≤ r.y + r.height)

/-- The loop of `splitStrokeByRect` (`src/state.ts`, lines 98-111):
`cur` is the `currentSegment` accumulator; a segment is pushed only when
its length is at least 2, both at an in-rect point and at the end. -/
def splitLoop (r : Rect) : List Point → List Point → List (List Point)
  | [], cur => if cur.length ≥ 2 then [cur] else []
  | p :: ps, cur =>
    if pointInRect p r then
      (if cur.length ≥ 2 then [cur] else []) ++ splitLoop r ps []
    else
      splitLoop r ps (cur ++ [p])

/-- `splitStrokeByRect` (`src/state.ts`, lines 94-114). -/
def splitStrokeByRect (s : Stroke) (r : Rect) : List (List Point) :=
  splitLoop r s.points []

/-- `isFullyInsideRect` (`src/state.ts`, lines 116-123). -/
def isFullyInsideRect (b : Rect) (r : Rect) : Bool :=
  decide (b.x ≥ r.x) && decide (b.y ≥ r.y) &&
  decide (b.x + b.width ≤ r.x + r.width) &&
  decide (b.y + b.height ≤ r.y + r.height)

/-- The inner push loop of the stroke branch of `eraseInRect`
(`src/state.ts`, lines 139-147): for each segment of length ≥ 2, a new
sub-stroke with a fresh id inheriting the original's color and width.
Returns the advanced id counter together with the pushed elements. -/
def eraseStrokeSegs (s : Stroke) : Nat → List (List Point) → Nat × List PaperElement
  | n, [] => (n, [])
  | n, seg :: rest =>
    if seg.length ≥ 2 then
      let out := eraseStrokeSegs s (n + 1) rest
      (out.1, PaperElement.stroke { s with id := generateId n, points := seg } :: out.2)
    else
      eraseStrokeSegs s n rest

/-- The body of the `eraseInRect` loop for one element (`src/state.ts`,
lines 129-172).  Returns the advanced id counter, the elements pushed to
`newElements` for this element, and whether `changed` was set. -/
def eraseStep (r : Rect) (n : Nat) : PaperElement → Nat × List PaperElement × Bool
  | .stroke s =>
    let segments := splitStrokeByRect s r
    if segments.length = 0 then
      (n, [], true)
    else if segments.length = 1 ∧ (segments.headD []).length = s.points.length then
      (n, [.stroke s], false)
    else
      let out := eraseStrokeSegs s n segments
      (out.1, out.2, true)
  | .rectEl re =>
    if isFullyInsideRect { x := re.x, y := re.y, width := re.width, height := re.height } r then
      (n, [], true)
    else
      (n, [.rectEl re], false)
  | .textEl t =>
    let textBounds : Rect :=
      { x := t.x, y := t.y, width := (t.content.length : ℚ) * t.fontSize * ratPointSix,
        height := t.fontSize }
    if isFullyInsideRect textBounds r then
      (n, [], true)
    else
      (n, [.textEl t], false)

/-- The whole `for (const el of paper.elements)` loop of `eraseInRect`
(`src/state.ts`, lines 129-172), threading the id counter and the
`changed` flag and concatenating the `newElements` pushes in order. -/
def eraseElems (r : Rect) : Nat → List PaperElement → Nat × List PaperElement × Bool
  | n, [] => (n, [], false)
  | n, el :: rest =>
    let head := eraseStep r n el
    let tail := eraseElems r head.1 rest
    (tail.1, head.2.1 ++ tail.2.1, head.2.2 || tail.2.2)

/-- `eraseInRect` (`src/state.ts`, lines 125-181): rebuild the element
list, and commit (history push) only when `changed`. -/
def eraseInRect (r : Rect) (st : MState) : MState :=
  let out := eraseElems r st.nextId st.elements
  if out.2.2 then
    pushHistory { st with elements := out.2.1, nextId := out.1 }
  else
    st

/-- The four mutating document operations of claim C3. -/
inductive MutOp where
  | add (e : PaperElement)
  | remove (i : String)
  | clear
  | erase (r : Rect)
deriving DecidableEq, Repr

/-- Apply one mutating operation. -/
def MutOp.apply : MutOp → MState → MState
  | .add e => addElement e
  | .remove i => removeElement i
  | .clear => clearElements
  | .erase r => eraseInRect r

/-- Apply a sequence of mutating operations, left to right. -/
def applyOps (ops : List MutOp) (st : MState) : MState :=
  ops.foldl (fun s op => op.apply s) st

/-- Spec-side definition (for the refinement claims about erasing): the
maximal contiguous runs of points lying outside `r`, in order.  A run
starts at an outside point and extends with `takeWhile` as far as points
stay outside; the recursion resumes past it with `dropWhile`. -/
def runsOutside (r : Rect) : List Point → List (List Point)
  | [] => []
  | p :: ps =>
    if pointInRect p r then runsOutside r ps
    else
      (p :: ps.takeWhile (fun q => !pointInRect q r)) ::
        runsOutside r (ps.dropWhile (fun q => !pointInRect q r))
termination_by l => l.length
decreasing_by
  · simp
  · have h : (ps.dropWhile (fun q => !pointInRect q r)).length ≤ ps.length :=
      (List.dropWhile_suffix (fun q => !pointInRect q r)).length_le
    simp only [List.length_cons]
    omega

/-- Spec-side: the runs that qualify as surviving sub-strokes — the
maximal contiguous out-of-rect runs of length at least 2. -/
def qualifyingRuns (r : Rect) (pts : List Point) : List (List Point) :=
  (runsOutside r pts).filter (fun run => decide (2 ≤ run.length))

/-! ### Tool state machine (`src/tools.ts`) -/

/-- Tool settings (`ToolSettings` in `src/types.ts`), with the defaults
of `createToolManager` (`src/tools.ts`, lines 39-46). -/
structure ToolSettings where
  penColor : String := "#000000"
  penWidth : ℚ := 2
  eraserWidth : ℚ := 20
  fontSize : ℚ := 16
  textColor : String := "#000000"
  fontFamily : String := "sans-serif"
deriving DecidableEq, Repr

/-- A bare `{x, y}` position. -/
structure P2 where
  x : ℚ
  y : ℚ
deriving DecidableEq, Repr

/-- The live-feedback payloads (`PreviewType` in `src/types.ts`),
tagged by kind as the source tags them. -/
inductive Preview where
  | strokePrev (s : Stroke)
  | rectanglePrev (x y width height : ℚ) (color : String) (strokeWidth : ℚ)
  | eraserSelection (x y width height : ℚ)
  | textCursor (x y fontSize : ℚ)
  | textPrev (t : TextElement)
deriving DecidableEq, Repr

/-- What `onElementComplete` receives: a finished element, or the
`EraseAction` the eraser tool smuggles through the same callback
(`src/tools.ts`, lines 145-146). -/
inductive Completed where
  | element (e : PaperElement)
  | eraseAction (r : Rect)
deriving DecidableEq, Repr

/-- One observable output of the tool manager: a call to
`onElementComplete` or to `onPreviewUpdate` (with `none` for the
`onPreviewUpdate(null)` resets). -/
inductive ToolOut where
  | complete (c : Completed)
  | previewUpdate (p : Option Preview)
deriving DecidableEq, Repr

/-- The state owned by `createToolManager` (`src/tools.ts`, lines 38-52),
plus the counter backing its `generateId` supply. -/
structure TState where
  currentTool : String
  settings : ToolSettings
  activeStroke : Option Stroke
  activeRectStart : Option P2
  activeTextPosition : Option P2
  activeTextContent : String
  activeEraserStart : Option P2
  nextId : Nat
deriving DecidableEq, Repr

/-- The fresh tool-manager state: tool `pen`, default settings, nothing
in flight. -/
def initTState : TState :=
  { currentTool := "pen", settings := {}, activeStroke := none,
    activeRectStart := none, activeTextPosition := none,
    activeTextContent := "", activeEraserStart := none, nextId := 0 }

/-- The pending text element `finishCurrentAction` / `handleClick` /
`handleKeyDown` commit (`src/tools.ts`, e.g. lines 75-83). -/
def pendingText (st : TState) (pos : P2) : TextElement :=
  { id := generateId st.nextId, x := pos.x, y := pos.y,
    content := st.activeTextContent, fontSize := st.settings.fontSize,
    color := st.settings.textColor, fontFamily := st.settings.fontFamily }

/-- `finishCurrentAction` (`src/tools.ts`, lines 73-90): commits the
pending text when a caret is open with non-empty content
(`if (activeTextPosition && activeTextContent)`), then clears the
stroke, the rectangle drag origin and the caret.  Note the source does
not clear `activeEraserStart`. -/
def finishCurrentAction (st : TState) : TState × List ToolOut :=
  let out : List ToolOut × Nat :=
    match st.activeTextPosition with
    | some pos =>
      if st.activeTextContent ≠ "" then
        ([.complete (.element (.textEl (pendingText st pos)))], st.nextId + 1)
      else ([], st.nextId)
    | none => ([], st.nextId)
  ({ st with activeStroke := none, activeRectStart := none,
             activeTextPosition := none, activeTextContent := "",
             nextId := out.2 }, out.1)

/-- `setTool` (`src/tools.ts`, lines 54-59): valid tool names first run
`finishCurrentAction`, then change the tool; anything else is ignored. -/
def setTool (t : String) (st : TState) : TState × List ToolOut :=
  if (["pen", "eraser", "rectangle", "text"] : List String).contains t then
    let out := finishCurrentAction st
    ({ out.1 with currentTool := t }, out.2)
  else
    (st, [])

/-- `handleStrokeStart` (`src/tools.ts`, lines 92-105). -/
def handleStrokeStart (p : Point) (st : TState) : TState × List ToolOut :=
  if st.currentTool = "pen" then
    ({ st with
        activeStroke := some
          { id := generateId st.nextId, points := [p],
            color := st.settings.penColor, width := st.settings.penWidth },
        nextId := st.nextId + 1 }, [])
  else if st.currentTool = "eraser" then
    ({ st with activeEraserStart := some ⟨p.x, p.y⟩ }, [])
  else if st.currentTool = "rectangle" then
    ({ st with activeRectStart := some ⟨p.x, p.y⟩ }, [])
  else
    (st, [])

/-- `handleStrokeMove` (`src/tools.ts`, lines 107-130). -/
def handleStrokeMove (p : Point) (st : TState) : TState × List ToolOut :=
  if st.currentTool = "pen" then
    match st.activeStroke with
    | some s =>
      let s2 := { s with points := s.points ++ [p] }
      ({ st with activeStroke := some s2 },
       [.previewUpdate (some (.strokePrev s2))])
    | none => (st, [])
  else if st.currentTool = "eraser" then
    match st.activeEraserStart with
    | some e =>
      (st, [.previewUpdate (some (.eraserSelection
        (min e.x p.x) (min e.y p.y) |p.x - e.x| |p.y - e.y|))])
    | none => (st, [])
  else if st.currentTool = "rectangle" then
    match st.activeRectStart with
    | some a =>
      (st, [.previewUpdate (some (.rectanglePrev
        (min a.x p.x) (min a.y p.y) |p.x - a.x| |p.y - a.y|
        st.settings.penColor st.settings.penWidth))])
    | none => (st, [])
  else
    (st, [])

/-- `handleStrokeEnd` (`src/tools.ts`, lines 132-167): the pen commits
the stroke with the release point appended; the eraser emits an
`EraseAction` and the rectangle tool a `Rectangle`, each only when the
normalized drag rectangle has width > 2 and height > 2, and both reset
the preview. -/
def handleStrokeEnd (p : Point) (st : TState) : TState × List ToolOut :=
  if st.currentTool = "pen" then
    match st.activeStroke with
    | some s =>
      let s2 := { s with points := s.points ++ [p] }
      ({ st with activeStroke := none },
       [.complete (.element (.stroke s2))])
    | none => (st, [])
  else if st.currentTool = "eraser" then
    match st.activeEraserStart with
    | some e =>
      let er : Rect :=
        { x := min e.x p.x, y := min e.y p.y,
          width := |p.x - e.x|, height := |p.y - e.y| }
      let outs : List ToolOut :=
        if er.width > 2 ∧ er.height > 2 then [.complete (.eraseAction er)] else []
      ({ st with activeEraserStart := none }, outs ++ [.previewUpdate none])
    | none => (st, [])
  else if st.currentTool = "rectangle" then
    match st.activeRectStart with
    | some a =>
      let rc : Rectangle :=
        { id := generateId st.nextId,
          x := min a.x p.x, y := min a.y p.y,
          width := |p.x - a.x|, height := |p.y - a.y|,
          color := st.settings.penColor, strokeWidth := st.settings.penWidth,
          filled := false }
      let outs : List ToolOut :=
        if rc.width > 2 ∧ rc.height > 2 then [.complete (.element (.rectEl rc))] else []
      ({ st with activeRectStart := none, nextId := st.nextId + 1 },
       outs ++ [.previewUpdate none])
    | none => (st, [])
  else
    (st, [])

/-- `handleClick` (`src/tools.ts`, lines 169-187): under the text tool,
a click first commits a pending non-empty text, then (re)places the
caret and pushes a `textCursor` preview. -/
def handleClick (pos : P2) (st : TState) : TState × List ToolOut :=
  if st.currentTool = "text" then
    let out : List ToolOut × Nat :=
      match st.activeTextPosition with
      | some tp =>
        if st.activeTextContent ≠ "" then
          ([.complete (.element (.textEl (pendingText st tp)))], st.nextId + 1)
        else ([], st.nextId)
      | none => ([], st.nextId)
    ({ st with activeTextPosition := some pos, activeTextContent := "",
               nextId := out.2 },
     out.1 ++ [.previewUpdate (some (.textCursor pos.x pos.y st.settings.fontSize))])
  else
    (st, [])

/-- Keyboard event data (`KeyboardEventData` in `src/types.ts`); the
`preventDefault` capability is an effect and is not modelled. -/
structure KeyEvent where
  key : String
  ctrlKey : Bool := false
  shiftKey : Bool := false
  altKey : Bool := false
  metaKey : Bool := false
deriving DecidableEq, Repr

/-- `handleKeyDown` (`src/tools.ts`, lines 189-258).  The third
component is the returned `handled` boolean. -/
def handleKeyDown (ev : KeyEvent) (st : TState) : TState × List ToolOut × Bool :=
  if st.currentTool = "text" then
    match st.activeTextPosition with
    | some tp =>
      if ev.key = "Escape" then
        let out : List ToolOut × Nat :=
          if st.activeTextContent ≠ "" then
            ([.complete (.element (.textEl (pendingText st tp)))], st.nextId + 1)
          else ([], st.nextId)
        ({ st with activeTextPosition := none, activeTextContent := "",
                   nextId := out.2 },
         out.1 ++ [.previewUpdate none], true)
      else if ev.key = "Enter" then
        if st.activeTextContent ≠ "" then
          let np : P2 := ⟨tp.x, tp.y + st.settings.fontSize + 4⟩
          ({ st with activeTextPosition := some np, activeTextContent := "",
                     nextId := st.nextId + 1 },
           [.complete (.element (.textEl (pendingText st tp))),
            .previewUpdate (some (.textCursor np.x np.y st.settings.fontSize))], true)
        else (st, [], true)
      else if ev.key = "Backspace" then
        let c2 := st.activeTextContent.dropRight 1
        ({ st with activeTextContent := c2 },
         [.previewUpdate (some (.textPrev
           { id := "", x := tp.x, y := tp.y, content := c2,
             fontSize := st.settings.fontSize, color := st.settings.textColor,
             fontFamily := st.settings.fontFamily }))], true)
      else if ev.key.length = 1 ∧ ¬ev.ctrlKey ∧ ¬ev.metaKey then
        let c2 := st.activeTextContent ++ ev.key
        ({ st with activeTextContent := c2 },
         [.previewUpdate (some (.textPrev
           { id := "", x := tp.x, y := tp.y, content := c2,
             fontSize := st.settings.fontSize, color := st.settings.textColor,
             fontFamily := st.settings.fontFamily }))], true)
      else (st, [], false)
    | none => (st, [], false)
  else
    (st, [], false)

/-- `getActivePreview` (`src/tools.ts`, lines 260-279): an open stroke
yields a `stroke` preview; otherwise an open caret yields a
`textPreview`; otherwise `null`. -/
def getActivePreview (st : TState) : Option Preview :=
  match st.activeStroke with
  | some s => some (.strokePrev s)
  | none =>
    match st.activeTextPosition with
    | some tp =>
      some (.textPrev
        { id := "", x := tp.x, y := tp.y, content := st.activeTextContent,
          fontSize := st.settings.fontSize, color := st.settings.textColor,
          fontFamily := st.settings.fontFamily })
    | none => none

/-! ### Input normalizer (`src/lib/input.ts`) -/

/-- The mutable state of `createInputHandler` (`src/lib/input.ts`,
lines 65-67). -/
structure IState where
  isDrawing : Bool
  activePenId : Option Nat
  lastPenTime : Int
deriving DecidableEq, Repr

/-- The fields of a pointer event the handler reads. -/
structure PointerEvent where
  pointerType : String
  pointerId : Nat
  button : Int
  buttons : Nat
  clientX : ℚ
  clientY : ℚ
  pressure : ℚ
deriving DecidableEq, Repr

/-- The events the input normalizer emits to listeners
(`InputEventMap`); only the pointer-path events are modelled. -/
inductive InOut where
  | penActive (active : Bool)
  | penButton (t : String)
  | strokeStart (p : Point)
  | strokeMove (p : Point)
  | strokeEnd (p : Point)
deriving DecidableEq, Repr

/-- `PALM_REJECTION_TIMEOUT` (`src/lib/input.ts`, line 68). -/
def palmRejectionTimeout : Int := 500

/-- `getPointerPosition` (`src/lib/input.ts`, lines 70-77): coordinates
relative to the canvas bounding box (`rl`, `rt`), and `e.pressure || 0.5`
(a zero pressure is falsy and defaults to 0.5). -/
def getPointerPosition (rl rt : ℚ) (e : PointerEvent) : Point :=
  { x := e.clientX - rl, y := e.clientY - rt,
    pressure := if e.pressure = 0 then ratHalf else e.pressure }

/-- `isPenEraser` (`src/lib/input.ts`, lines 79-89). -/
def isPenEraser (e : PointerEvent) : Bool :=
  (e.pointerType = "pen" && (e.button = 5 || e.buttons &&& 32 ≠ 0)) ||
    e.pointerType = "eraser"

/-- `handlePointerDown` (`src/lib/input.ts`, lines 116-145), with the
current time `now` passed explicitly for `Date.now()`.  A touch arriving
while a pen is active, or within the palm-rejection window of the last
pen activity, returns before emitting anything. -/
def handlePointerDown (now : Int) (rl rt : ℚ) (e : PointerEvent) (st : IState) :
    IState × List InOut :=
  if e.pointerType = "touch" ∧
      (st.activePenId ≠ none ∨ now - st.lastPenTime < palmRejectionTimeout) then
    (st, [])
  else
    let penOuts : List InOut :=
      if e.pointerType = "pen" ∧ st.activePenId = none then [.penActive true] else []
    let st1 :=
      if e.pointerType = "pen" then
        { st with activePenId := some e.pointerId, lastPenTime := now }
      else st
    if e.button = 2 then
      (st1, penOuts ++ [.penButton "pen"])
    else
      let eraserOuts : List InOut :=
        if isPenEraser e then [.penButton "eraser"] else []
      ({ st1 with isDrawing := true },
       penOuts ++ eraserOuts ++ [.strokeStart (getPointerPosition rl rt e)])

/-- One mutating commit as seen by the history: the elements are
replaced by a snapshot and `pushHistory` runs (this is the common tail
of `addElement` / `removeElement` / `clearElements` and of a changing
`eraseInRect`). -/
def commitSnap (els : List PaperElement) (st : MState) : MState :=
  pushHistory { st with elements := els }

/-- A sequence of mutating commits, left to right. -/
def commitAll (snaps : List (List PaperElement)) (st : MState) : MState :=
  snaps.foldl (fun s els => commitSnap els s) st

/-- `k` consecutive `undo()` calls, collecting the returned booleans. -/
def undoRun : Nat → MState → List Bool × MState
  | 0, st => ([], st)
  | k + 1, st =>
    let r := undo st
    let r2 := undoRun k r.2
    (r.1 :: r2.1, r2.2)

/-- The history invariant of reachable states under mutating operations:
the index sits on the last snapshot and that snapshot is the live
element list. -/
def topHist (st : MState) : Prop :=
  st.idx + 1 = st.hist.length ∧ st.hist.getD st.idx [] = st.elements

/-! ### Concrete instances used in witnesses and counterexamples -/

/-- A full-capacity history state: 50 empty snapshots, index 49. -/
def fullState : MState := { elements := [], gridSettings := defaultGrid, hist := List.replicate 50 [], idx := 49, nextId := 0 }

/-- Fifty empty element-list snapshots to commit one after another. -/
def fiftySnaps : List (List PaperElement) := List.replicate 50 []

/-- A point with the default pressure 0.5. -/
def mkPoint (x y : ℚ) : Point := ⟨x, y, ratHalf⟩

/-- The stroke of the spec's stroke-splitting example:
points `[(0,0),(5,5),(15,15),(25,25)]`. -/
def exStroke : Stroke :=
  { id := "s1", points := [mkPoint 0 0, mkPoint 5 5, mkPoint 15 15, mkPoint 25 25],
    color := "#000000", width := 2 }

/-- The erase rectangle `{4,4,12,12}` of the same example; it spans
x ∈ [4,16], y ∈ [4,16]. -/
def exRect : Rect := ⟨4, 4, 12, 12⟩

/-- A document holding only `exStroke`, with the corresponding history. -/
def exState : MState :=
  { elements := [.stroke exStroke], gridSettings := defaultGrid,
    hist := [[], [.stroke exStroke]], idx := 1, nextId := 0 }

/-- A stroke lying entirely outside `exRect` (witness data: untouched by
the erase). -/
def exStrokeOut : Stroke :=
  { id := "s2", points := [mkPoint 100 100, mkPoint 200 200],
    color := "#ff0000", width := 3 }

/-- A stroke that `exRect` splits into two runs of length 2 (witness
data for the multi-sub-stroke branch). -/
def exStrokeTwo : Stroke :=
  { id := "s3",
    points := [mkPoint 0 0, mkPoint 1 1, mkPoint 5 5, mkPoint 20 20, mkPoint 21 21],
    color := "#000000", width := 2 }

/-- A fresh tool manager switched to the text tool. -/
def textToolState : TState := { initTState with currentTool := "text" }

/-- A fresh tool manager switched to the rectangle tool. -/
def rectToolState : TState := { initTState with currentTool := "rectangle" }

/-- A fresh tool manager switched to the eraser tool. -/
def eraserToolState : TState := { initTState with currentTool := "eraser" }

/-- The tool state after opening a text caret at (3,4) and typing
`h` then `i`. -/
def hiState : TState :=
  (handleKeyDown ⟨"i", false, false, false, false⟩
    (handleKeyDown ⟨"h", false, false, false, false⟩
      (handleClick ⟨3, 4⟩ textToolState).1).1).1

/-- A tool state with an open text caret holding "ab" and a leftover
eraser drag origin. -/
def flushState : TState :=
  { currentTool := "text", settings := {}, activeStroke := none,
    activeRectStart := none, activeTextPosition := some ⟨2, 2⟩,
    activeTextContent := "ab", activeEraserStart := some ⟨9, 9⟩, nextId := 5 }

/-- A tool state in the middle of an eraser drag started at (1,1). -/
def eraserDragState : TState :=
  { initTState with currentTool := "eraser", activeEraserStart := some ⟨1, 1⟩ }

/-! ### Lemmas about stroke splitting -/

/-- The first element surviving `dropWhile` fails the predicate. -/
theorem dropWhile_head_false {α : Type} (f : α → Bool) :
    ∀ (l : List α) (q : α) (qs : List α), l.dropWhile f = q :: qs → f q = false := by
  intro l
  induction l with
  | nil => intro q qs h; simp [List.dropWhile] at h
  | cons a as ih =>
    intro q qs h
    rw [List.dropWhile_cons] at h
    by_cases ha : f a = true
    · rw [if_pos ha] at h
      exact ih q qs h
    · rw [if_neg ha] at h
      cases h
      simpa using ha

/-- `splitLoop` absorbs a block of points outside the rectangle into the
current segment. -/
theorem splitLoop_append_outside (r : Rect) :
    ∀ (t l cur : List Point), (∀ q ∈ t, pointInRect q r = false) →
      splitLoop r (t ++ l) cur = splitLoop r l (cur ++ t) := by
  intro t
  induction t with
  | nil => intro l cur _; simp
  | cons q t ih =>
    intro l cur hq
    have hq0 : pointInRect q r = false := hq q (by simp)
    have hrest : ∀ p ∈ t, pointInRect p r = false := fun p hp => hq p (by simp [hp])
    simp only [List.cons_append, splitLoop, hq0, Bool.false_eq_true, if_false,
      List.append_eq]
    rw [ih l (cur ++ [q]) hrest, List.append_assoc]
    simp

/-- At a boundary (the list is empty or starts with an in-rect point),
`splitLoop` flushes the current segment, keeping it only when it has at
least two points. -/
theorem splitLoop_boundary (r : Rect) (l cur : List Point)
    (hl : l = [] ∨ ∃ q qs, l = q :: qs ∧ pointInRect q r = true) :
    splitLoop r l cur = (if 2 ≤ cur.length then [cur] else []) ++ splitLoop r l [] := by
  rcases hl with h | ⟨q, qs, rfl, hq⟩
  · subst h
    simp [splitLoop]
  · simp only [splitLoop, hq, if_true]
    simp [ge_iff_le]

/-- The split computed by the source's accumulator loop is exactly the
list of maximal contiguous runs of out-of-rect points, keeping the runs
of length at least 2. -/
theorem splitLoop_eq_filter_runs (r : Rect) :
    ∀ l : List Point,
      splitLoop r l [] =
        (runsOutside r l).filter (fun run => decide (2 ≤ run.length)) := by
  intro l
  induction l using runsOutside.induct r with
  | case1 => simp [splitLoop, runsOutside]
  | case2 p ps hp ih =>
    rw [runsOutside]
    simp only [hp, if_true]
    simpa [splitLoop, hp, ge_iff_le] using ih
  | case3 p ps hp ih =>
    have hfun : (fun q => !pointInRect q r) = fun q => decide (pointInRect q r = false) := by
      funext q
      cases hq : pointInRect q r <;> simp [hq]
    rw [runsOutside]
    simp only [hp, Bool.false_eq_true, if_false]
    have hsplit : ps.takeWhile (fun q => !pointInRect q r) ++
        ps.dropWhile (fun q => !pointInRect q r) = ps :=
      List.takeWhile_append_dropWhile (fun q => !pointInRect q r) ps
    have houts : ∀ q ∈ ps.takeWhile (fun q => !pointInRect q r), pointInRect q r = false := by
      intro q hq
      have := List.mem_takeWhile_imp hq
      simpa using this
    have h1 : splitLoop r (p :: ps) [] =
        splitLoop r (ps.dropWhile (fun q => !pointInRect q r))
          (p :: ps.takeWhile (fun q => !pointInRect q r)) := by
      have := splitLoop_append_outside r (ps.takeWhile (fun q => !pointInRect q r))
        (ps.dropWhile (fun q => !pointInRect q r)) [p] houts
      rw [hsplit] at this
      simp only [splitLoop, hp, Bool.false_eq_true, if_false]
      simpa using this
    have hbound : ps.dropWhile (fun q => !pointInRect q r) = [] ∨
        ∃ q qs, ps.dropWhile (fun q => !pointInRect q r) = q :: qs ∧ pointInRect q r = true := by
      cases hd : ps.dropWhile (fun q => !pointInRect q r) with
      | nil => exact Or.inl rfl
      | cons q qs =>
        refine Or.inr ⟨q, qs, rfl, ?_⟩
        have := dropWhile_head_false (fun q => !pointInRect q r) ps q qs hd
        simpa using this
    rw [h1, splitLoop_boundary r _ _ hbound, ih, List.filter_cons]
    by_cases hc : 1 ≤ (ps.takeWhile (fun q => !pointInRect q r)).length
    · simp [hc]
    · simp [hc]

/-- On segments that all have length at least 2, the push loop of the
stroke branch assigns consecutive fresh ids in order. -/
theorem eraseStrokeSegs_of_long (s : Stroke) :
    ∀ (segs : List (List Point)) (n : Nat), (∀ seg ∈ segs, 2 ≤ seg.length) →
      eraseStrokeSegs s n segs =
        (n + segs.length,
         (segs.enumFrom n).map
           (fun pr => PaperElement.stroke { s with id := generateId pr.1, points := pr.2 })) := by
  intro segs
  induction segs with
  | nil => intro n _; simp [eraseStrokeSegs, List.enumFrom]
  | cons seg rest ih =>
    intro n hlen
    have hseg : 2 ≤ seg.length := hlen seg (by simp)
    have hrest : ∀ sg ∈ rest, 2 ≤ sg.length := fun sg hsg => hlen sg (by simp [hsg])
    have harith : n + 1 + rest.length = n + (rest.length + 1) := by omega
    simp only [eraseStrokeSegs, ge_iff_le, hseg, if_true, ih (n + 1) hrest,
      List.enumFrom, List.map_cons, List.length_cons, harith]

/-- C1: for every stroke and every erase rectangle, `eraseInRect`'s
per-element step splits the stroke's point sequence into the maximal
contiguous runs of points outside the rectangle (edge points count as
inside); runs of length ≥ 2 become surviving sub-strokes with fresh ids
inheriting the original color and width, shorter runs are dropped, a
split that yields exactly one qualifying run covering all the points
leaves the stroke unchanged (same identity, no `changed` flag), and a
split with zero qualifying runs removes the stroke entirely. -/
theorem C1_eraseInRect_stroke_split (s : Stroke) (r : Rect) (n : Nat) :
    splitStrokeByRect s r = qualifyingRuns r s.points ∧
    (qualifyingRuns r s.points = [] → eraseStep r n (.stroke s) = (n, [], true)) ∧
    (∀ run, qualifyingRuns r s.points = [run] → run.length = s.points.length →
      eraseStep r n (.stroke s) = (n, [.stroke s], false)) ∧
    (qualifyingRuns r s.points ≠ [] →
      (∀ run, qualifyingRuns r s.points = [run] → run.length ≠ s.points.length) →
      eraseStep r n (.stroke s) =
        (n + (qualifyingRuns r s.points).length,
         ((qualifyingRuns r s.points).enumFrom n).map
           (fun pr => PaperElement.stroke { s with id := generateId pr.1, points := pr.2 }),
         true)) := by
  have hsplit : splitStrokeByRect s r = qualifyingRuns r s.points :=
    splitLoop_eq_filter_runs r s.points
  refine ⟨hsplit, ?_, ?_, ?_⟩
  · intro h0
    simp [eraseStep, hsplit, h0]
  · intro run h1 hlen
    simp [eraseStep, hsplit, h1, hlen]
  · intro hne hnot
    have hlong : ∀ seg ∈ qualifyingRuns r s.points, 2 ≤ seg.length := by
      intro seg hseg
      have := (List.mem_filter.mp hseg).2
      exact of_decide_eq_true this
    have hlen0 : (qualifyingRuns r s.points).length ≠ 0 := by
      simpa [List.length_eq_zero] using hne
    have hcond : ¬((qualifyingRuns r s.points).length = 1 ∧
        ((qualifyingRuns r s.points).headD []).length = s.points.length) := by
      rintro ⟨h1, h2⟩
      obtain ⟨run, hrun⟩ := List.length_eq_one.mp h1
      rw [hrun] at h2
      exact hnot run hrun (by simpa using h2)
    simp only [eraseStep, hsplit, hlen0, if_false, hcond,
      eraseStrokeSegs_of_long s _ n hlong]

/-- C1 witness: the three branches at concrete inputs — the example
stroke is removed by the example rectangle; a stroke entirely outside
survives unchanged; a stroke split into two qualifying runs becomes two
fresh sub-strokes inheriting color and width. -/
theorem C1_eraseInRect_stroke_split_witness :
    eraseStep exRect 0 (.stroke exStroke) = (0, [], true) ∧
    eraseStep exRect 0 (.stroke exStrokeOut) = (0, [.stroke exStrokeOut], false) ∧
    eraseStep exRect 7 (.stroke exStrokeTwo) =
      (9,
       [.stroke { exStrokeTwo with id := generateId 7, points := [mkPoint 0 0, mkPoint 1 1] },
        .stroke { exStrokeTwo with id := generateId 8, points := [mkPoint 20 20, mkPoint 21 21] }],
       true) := by
  have hA : qualifyingRuns exRect exStroke.points = [] := by
    rw [← (C1_eraseInRect_stroke_split exStroke exRect 0).1]
    with_unfolding_all decide
  have hB : qualifyingRuns exRect exStrokeOut.points = [exStrokeOut.points] := by
    rw [← (C1_eraseInRect_stroke_split exStrokeOut exRect 0).1]
    with_unfolding_all decide
  have hC : qualifyingRuns exRect exStrokeTwo.points =
      [[mkPoint 0 0, mkPoint 1 1], [mkPoint 20 20, mkPoint 21 21]] := by
    rw [← (C1_eraseInRect_stroke_split exStrokeTwo exRect 0).1]
    with_unfolding_all decide
  refine ⟨(C1_eraseInRect_stroke_split exStroke exRect 0).2.1 hA,
    (C1_eraseInRect_stroke_split exStrokeOut exRect 0).2.2.1
      exStrokeOut.points hB (by with_unfolding_all decide), ?_⟩
  have h := (C1_eraseInRect_stroke_split exStrokeTwo exRect 7).2.2.2
    (by rw [hC]; simp)
    (by intro run hrun; rw [hC] at hrun; simp at hrun)
  rw [hC] at h
  simpa [List.enumFrom] using h

/-! ### Lemmas about the history -/

/-- A push from a state whose index sits on the last snapshot
re-establishes the invariant. -/
theorem topHist_pushHistory (st : MState) (h : st.idx + 1 = st.hist.length) :
    topHist (pushHistory st) := by
  have htake : st.hist.take (st.idx + 1) = st.hist :=
    List.take_of_length_le (le_of_eq h.symm)
  unfold pushHistory topHist
  simp only [htake]
  by_cases hover : (st.hist ++ [st.elements]).length > maxHistory
  · rw [if_pos hover]
    have hlen : (st.hist ++ [st.elements]).length = st.hist.length + 1 := by simp
    constructor
    · simp only [List.length_drop, hlen]
      omega
    · rw [List.getD_eq_getElem?_getD, List.getElem?_drop]
      have hidx : 1 + st.idx = st.hist.length := by omega
      rw [hidx, List.getElem?_concat_length]
      rfl
  · rw [if_neg hover]
    constructor
    · simp only [List.length_append, List.length_singleton]
      omega
    · rw [List.getD_eq_getElem?_getD]
      have hidx : st.idx + 1 = st.hist.length := h
      rw [hidx, List.getElem?_concat_length]
      rfl

/-- Every mutating operation preserves the history invariant. -/
theorem topHist_apply (op : MutOp) (st : MState) (h : topHist st) :
    topHist (op.apply st) := by
  cases op with
  | add e => exact topHist_pushHistory _ h.1
  | remove i => exact topHist_pushHistory _ h.1
  | clear => exact topHist_pushHistory _ h.1
  | erase r =>
    unfold MutOp.apply eraseInRect
    by_cases hch : (eraseElems r st.nextId st.elements).2.2 = true
    · simp only [hch, if_true]
      exact topHist_pushHistory _ h.1
    · simp only [hch, if_false]
      exact h

/-- The history invariant holds after any sequence of mutating
operations on a fresh state manager. -/
theorem topHist_applyOps_of (ops : List MutOp) :
    ∀ st : MState, topHist st → topHist (applyOps ops st) := by
  induction ops with
  | nil => intro st h; exact h
  | cons op rest ih =>
    intro st h
    rw [applyOps, List.foldl_cons]
    exact ih _ (topHist_apply op st h)

/-- The history invariant holds after any sequence of mutating
operations on a fresh state manager. -/
theorem topHist_applyOps (ops : List MutOp) :
    topHist (applyOps ops initMState) :=
  topHist_applyOps_of ops initMState ⟨rfl, rfl⟩

/-- Fields of a state after `commitSnap` under the invariant: the index
stays on top and the length grows, saturating at the 50-entry cap. -/
theorem commitSnap_shape (els : List PaperElement) (st : MState)
    (h : st.idx + 1 = st.hist.length) (hle : st.hist.length ≤ 50) :
    (commitSnap els st).idx + 1 = (commitSnap els st).hist.length ∧
    (commitSnap els st).hist.length = min (st.hist.length + 1) 50 := by
  have h1 := topHist_pushHistory { st with elements := els } h
  refine ⟨h1.1, ?_⟩
  unfold commitSnap pushHistory
  have htake : st.hist.take (st.idx + 1) = st.hist :=
    List.take_of_length_le (le_of_eq h.symm)
  simp only [htake]
  by_cases hover : (st.hist ++ [els]).length > maxHistory
  · rw [if_pos hover]
    simp only [List.length_drop, List.length_append, List.length_singleton]
    simp only [List.length_append, List.length_singleton, maxHistory] at hover
    omega
  · rw [if_neg hover]
    simp only [List.length_append, List.length_singleton, maxHistory] at hover ⊢
    omega

/-- Shape of the state after a whole sequence of commits. -/
theorem commitAll_shape (snaps : List (List PaperElement)) :
    ∀ st : MState, st.idx + 1 = st.hist.length → st.hist.length ≤ 50 →
      (commitAll snaps st).idx + 1 = (commitAll snaps st).hist.length ∧
      (commitAll snaps st).hist.length = min (st.hist.length + snaps.length) 50 := by
  induction snaps with
  | nil =>
    intro st h hle
    refine ⟨h, ?_⟩
    show st.hist.length = min (st.hist.length + 0) 50
    omega
  | cons els rest ih =>
    intro st h hle
    have hc := commitSnap_shape els st h hle
    have hle2 : (commitSnap els st).hist.length ≤ 50 := by omega
    have := ih (commitSnap els st) hc.1 hle2
    rw [commitAll, List.foldl_cons]
    refine ⟨this.1, ?_⟩
    rw [show List.foldl (fun s e => commitSnap e s) (commitSnap els st) rest =
      commitAll rest (commitSnap els st) from rfl, this.2, hc.2]
    simp only [List.length_cons]
    omega

/-- A run of `k` undos from a state with index `k` or more returns
`true` every time and lowers the index by `k`, leaving the history
untouched. -/
theorem undoRun_true (k : Nat) :
    ∀ st : MState, k ≤ st.idx →
      (undoRun k st).1 = List.replicate k true ∧
      (undoRun k st).2.idx = st.idx - k ∧
      (undoRun k st).2.hist = st.hist := by
  induction k with
  | zero => intro st _; exact ⟨rfl, by simp [undoRun], rfl⟩
  | succ k ih =>
    intro st hk
    have hpos : st.idx > 0 := by omega
    have hundo : undo st = (true, { st with idx := st.idx - 1, elements := st.hist.getD (st.idx - 1) [] }) := by
      unfold undo
      rw [if_pos hpos]
    have hk2 : k ≤ st.idx - 1 := by omega
    have hih := ih { st with idx := st.idx - 1, elements := st.hist.getD (st.idx - 1) [] } hk2
    simp only [undoRun, hundo]
    refine ⟨?_, ?_, hih.2.2⟩
    · simp only [hih.1, List.replicate_succ]
    · simp only [hih.2.1]
      omega

/-- Splitting a run of undos. -/
theorem undoRun_split (a b : Nat) :
    ∀ st : MState,
      undoRun (a + b) st =
        ((undoRun a st).1 ++ (undoRun b (undoRun a st).2).1,
         (undoRun b (undoRun a st).2).2) := by
  induction a with
  | zero => intro st; simp [undoRun]
  | succ a ih =>
    intro st
    have harith : a + 1 + b = (a + b) + 1 := by omega
    rw [harith]
    simp only [undoRun]
    rw [ih (undo st).2]
    simp

/-- C2: history capacity is 50 snapshots; a push at capacity (index on
the last snapshot) evicts the oldest snapshot and does not advance the
index; and after at least 50 mutating commits on a fresh manager, a run
of 50 `undo()` calls succeeds exactly 49 times — the 50th returns
`false`. -/
theorem C2_history_bound (st : MState) (snaps : List (List PaperElement))
    (hfull : st.hist.length = 50) (hidx : st.idx = 49) (hn : 50 ≤ snaps.length) :
    ((pushHistory st).idx = st.idx ∧
     (pushHistory st).hist = st.hist.tail ++ [st.elements] ∧
     (pushHistory st).hist.length = 50) ∧
    (undoRun 50 (commitAll snaps initMState)).1 =
      List.replicate 49 true ++ [false] := by
  constructor
  · have htake : st.hist.take (st.idx + 1) = st.hist := by
      apply List.take_of_length_le
      omega
    have hover : (st.hist ++ [st.elements]).length > maxHistory := by
      simp only [List.length_append, List.length_singleton, hfull, maxHistory]
      omega
    have hpush : pushHistory st = { st with hist := (st.hist ++ [st.elements]).drop 1 } := by
      simp only [pushHistory, htake]
      rw [if_pos hover]
    rw [hpush]
    refine ⟨rfl, ?_, ?_⟩
    · cases hh : st.hist with
      | nil => rw [hh] at hfull; simp at hfull
      | cons a t => simp [hh]
    · simp only [List.length_drop, List.length_append, List.length_singleton, hfull]
  · have hshape := commitAll_shape snaps initMState (by rfl) (by simp [initMState])
    have hlen : (commitAll snaps initMState).hist.length = 50 := by
      rw [hshape.2]
      simp only [initMState, List.length_singleton]
      omega
    have hidx2 : (commitAll snaps initMState).idx = 49 := by
      have := hshape.1
      omega
    have h49 := undoRun_true 49 (commitAll snaps initMState) (by omega)
    have hsplit := undoRun_split 49 1 (commitAll snaps initMState)
    have hidx0 : (undoRun 49 (commitAll snaps initMState)).2.idx = 0 := by
      rw [h49.2.1, hidx2]
    have hlast : (undoRun 1 (undoRun 49 (commitAll snaps initMState)).2).1 = [false] := by
      have hu : undo (undoRun 49 (commitAll snaps initMState)).2 =
          (false, (undoRun 49 (commitAll snaps initMState)).2) := by
        unfold undo
        rw [if_neg (by omega)]
      show (undo (undoRun 49 (commitAll snaps initMState)).2).1 ::
          (undoRun 0 (undo (undoRun 49 (commitAll snaps initMState)).2).2).1 = [false]
      rw [hu]
      rfl
    have h50 : (49 : Nat) + 1 = 50 := rfl
    rw [← h50, hsplit]
    rw [h49.1, hlast]

/-- C2 witness: the capacity behaviour at a concrete full state, and
the 49-true/one-false undo run after 50 concrete commits. -/
theorem C2_history_bound_witness :
    ((pushHistory fullState).idx = fullState.idx ∧
     (pushHistory fullState).hist = fullState.hist.tail ++ [fullState.elements] ∧
     (pushHistory fullState).hist.length = 50) ∧
    (undoRun 50 (commitAll fiftySnaps initMState)).1 =
      List.replicate 49 true ++ [false] :=
  C2_history_bound fullState fiftySnaps (by simp [fullState]) (by rfl) (by simp [fiftySnaps])

/-- C3: after any sequence of mutating operations on a fresh state
manager, `undo()` followed by `redo()` restores the element list that
was live just before the `undo()`, and each of the two calls returns
`true` exactly when it moved the history index. -/
theorem C3_undo_redo_inverse (ops : List MutOp) :
    (redo (undo (applyOps ops initMState)).2).2.elements =
      (applyOps ops initMState).elements ∧
    ((undo (applyOps ops initMState)).1 = true ↔
      (undo (applyOps ops initMState)).2.idx ≠ (applyOps ops initMState).idx) ∧
    ((redo (undo (applyOps ops initMState)).2).1 = true ↔
      (redo (undo (applyOps ops initMState)).2).2.idx ≠
        (undo (applyOps ops initMState)).2.idx) := by
  have hg := topHist_applyOps ops
  set st := applyOps ops initMState with hst
  by_cases hz : st.idx = 0
  · have hlen1 : st.hist.length = 1 := by
      have := hg.1
      omega
    have hundo : undo st = (false, st) := by
      unfold undo
      rw [if_neg (by omega)]
    have hredo : redo st = (false, st) := by
      unfold redo
      rw [if_neg (by omega)]
    simp [hundo, hredo]
  · have hpos : st.idx > 0 := Nat.pos_of_ne_zero hz
    have hundo : undo st = (true, { st with idx := st.idx - 1, elements := st.hist.getD (st.idx - 1) [] }) := by
      unfold undo
      rw [if_pos hpos]
    rw [hundo]
    have hredo : redo { st with idx := st.idx - 1, elements := st.hist.getD (st.idx - 1) [] } =
        (true, { st with idx := st.idx - 1 + 1, elements := st.hist.getD (st.idx - 1 + 1) [] }) := by
      unfold redo
      rw [if_pos (show st.idx - 1 < st.hist.length - 1 from by have := hg.1; omega)]
    rw [hredo]
    have hidx : st.idx - 1 + 1 = st.idx := by omega
    refine ⟨?_, by simp only [true_iff]; omega, by simp only [true_iff]; omega⟩
    simp only [hidx]
    exact hg.2

/-- C4 counterexample: for the document holding the single stroke with
points `[(0,0),(5,5),(15,15),(25,25)]`, `eraseInRect {4,4,12,12}` does
not leave one sub-stroke `[(15,15),(25,25)]` — it removes the stroke
entirely, because `(15,15)` also lies inside the rectangle. -/
theorem C4_counterexample :
    (eraseInRect exRect exState).elements = [] ∧
    ¬∃ t : Stroke, (eraseInRect exRect exState).elements = [.stroke t] ∧
      t.points = [mkPoint 15 15, mkPoint 25 25] := by
  have h : (eraseInRect exRect exState).elements = [] := by with_unfolding_all decide
  refine ⟨h, ?_⟩
  rintro ⟨t, ht, -⟩
  rw [h] at ht
  simp at ht

/-- C4 (amended): erasing the stroke `[(0,0),(5,5),(15,15),(25,25)]`
with rect `{4,4,12,12}` removes it entirely: `(15,15)` lies inside the
rectangle too (15 ≤ 4 + 12), so the runs outside are `[(0,0)]` and
`[(25,25)]`, each of length 1 and therefore dropped. -/
theorem C4_erase_example_removes_stroke :
    pointInRect (mkPoint 15 15) exRect = true ∧
    runsOutside exRect exStroke.points = [[mkPoint 0 0], [mkPoint 25 25]] ∧
    splitStrokeByRect exStroke exRect = [] ∧
    (eraseInRect exRect exState).elements = [] := by
  refine ⟨by with_unfolding_all decide, ?_, by with_unfolding_all decide,
    by with_unfolding_all decide⟩
  simp [exStroke, runsOutside, List.takeWhile, List.dropWhile,
    show pointInRect (mkPoint 0 0) exRect = false from by with_unfolding_all decide,
    show pointInRect (mkPoint 5 5) exRect = true from by with_unfolding_all decide,
    show pointInRect (mkPoint 15 15) exRect = true from by with_unfolding_all decide,
    show pointInRect (mkPoint 25 25) exRect = false from by with_unfolding_all decide]

/-- C5: ending a rectangle-tool gesture dragged from (a,b) to (c,d)
normalizes the rectangle to top-left (min a c, min b d) with
non-negative width |c−a| and height |d−b|, and commits it exactly when
width > 2 and height > 2; the eraser tool emits an erase request with
the same normalized rectangle under the same threshold; sub-threshold
drags emit nothing but the preview reset. -/
theorem C5_drag_normalization (a b c d pr : ℚ) (ts : ToolSettings)
    (os : Option Stroke) (ors otp oes : Option P2) (tc : String) (n : Nat) :
    handleStrokeEnd ⟨c, d, pr⟩ ⟨"rectangle", ts, os, some ⟨a, b⟩, otp, tc, oes, n⟩ =
      (⟨"rectangle", ts, os, none, otp, tc, oes, n + 1⟩,
       (if 2 < |c - a| ∧ 2 < |d - b| then
          [ToolOut.complete (.element (.rectEl
            ⟨generateId n, min a c, min b d, |c - a|, |d - b|, ts.penColor, ts.penWidth, false⟩))]
        else []) ++ [ToolOut.previewUpdate none]) ∧
    handleStrokeEnd ⟨c, d, pr⟩ ⟨"eraser", ts, os, ors, otp, tc, some ⟨a, b⟩, n⟩ =
      (⟨"eraser", ts, os, ors, otp, tc, none, n⟩,
       (if 2 < |c - a| ∧ 2 < |d - b| then
          [ToolOut.complete (.eraseAction ⟨min a c, min b d, |c - a|, |d - b|⟩)]
        else []) ++ [ToolOut.previewUpdate none]) ∧
    0 ≤ |c - a| ∧ 0 ≤ |d - b| := by
  refine ⟨?_, ?_, abs_nonneg _, abs_nonneg _⟩ <;> rfl

/-- C9: a touch-type pointer-down arriving while the active-pen flag is
set, or within 500 time-units of the most recent pen activity, is
dropped whole: no event at all — in particular no stroke-start — is
emitted, and the state is unchanged. -/
theorem C9_palm_rejection (st : IState) (e : PointerEvent) (now : Int) (rl rt : ℚ)
    (htouch : e.pointerType = "touch")
    (h : st.activePenId ≠ none ∨ now - st.lastPenTime < palmRejectionTimeout) :
    handlePointerDown now rl rt e st = (st, []) ∧
    ∀ p, InOut.strokeStart p ∉ (handlePointerDown now rl rt e st).2 := by
  have hmain : handlePointerDown now rl rt e st = (st, []) := by
    unfold handlePointerDown
    rw [if_pos ⟨htouch, h⟩]
  refine ⟨hmain, ?_⟩
  intro p
  rw [hmain]
  simp

/-- C9 witness: a touch pointer-down while a pen is active, and another
one 200 time-units after the last pen activity, both produce no
events. -/
theorem C9_palm_rejection_witness :
    handlePointerDown 1000 0 0 ⟨"touch", 7, 0, 0, 10, 10, 1⟩ ⟨false, some 3, 0⟩ =
      (⟨false, some 3, 0⟩, []) ∧
    handlePointerDown 1000 0 0 ⟨"touch", 7, 0, 0, 10, 10, 1⟩ ⟨false, none, 800⟩ =
      (⟨false, none, 800⟩, []) :=
  ⟨(C9_palm_rejection ⟨false, some 3, 0⟩ ⟨"touch", 7, 0, 0, 10, 10, 1⟩ 1000 0 0 rfl
      (Or.inl (by simp))).1,
   (C9_palm_rejection ⟨false, none, 800⟩ ⟨"touch", 7, 0, 0, 10, 10, 1⟩ 1000 0 0 rfl
      (Or.inr (by decide))).1⟩

/-- A run of pen-tool gesture moves appends the moved points, in order,
to the open stroke, and changes nothing else. -/
theorem pen_moves_fold (moves : List Point) :
    ∀ (st : TState) (s : Stroke), st.currentTool = "pen" → st.activeStroke = some s →
      moves.foldl (fun t m => (handleStrokeMove m t).1) st =
        { st with activeStroke := some { s with points := s.points ++ moves } } := by
  induction moves with
  | nil =>
    intro st s _ hs
    simp only [List.foldl_nil, List.append_nil]
    rw [← hs]
  | cons m ms ih =>
    intro st s hp hs
    have hstep : (handleStrokeMove m st).1 =
        { st with activeStroke := some { s with points := s.points ++ [m] } } := by
      unfold handleStrokeMove
      rw [if_pos hp, hs]
    rw [List.foldl_cons, hstep,
      ih { st with activeStroke := some { s with points := s.points ++ [m] } }
        { s with points := s.points ++ [m] } hp rfl]
    simp

/-- C10: a pen gesture — start at `p`, any list of moves, end at `q` —
commits exactly one stroke whose points are `p`, the moved points, then
`q`; in particular every committed pen stroke has at least 2 points,
even with no intervening moves. -/
theorem C10_pen_stroke_two_points (st : TState) (hp : st.currentTool = "pen")
    (p q : Point) (moves : List Point) :
    (handleStrokeEnd q (moves.foldl (fun t m => (handleStrokeMove m t).1)
        (handleStrokeStart p st).1)).2 =
      [.complete (.element (.stroke ⟨generateId st.nextId, p :: (moves ++ [q]),
        st.settings.penColor, st.settings.penWidth⟩))] ∧
    2 ≤ (p :: (moves ++ [q])).length := by
  have h1 : (handleStrokeStart p st).1 =
      { st with activeStroke := some ⟨generateId st.nextId, [p],
          st.settings.penColor, st.settings.penWidth⟩, nextId := st.nextId + 1 } := by
    unfold handleStrokeStart
    rw [if_pos hp]
  have h2 := pen_moves_fold moves
    { st with activeStroke := some ⟨generateId st.nextId, [p],
        st.settings.penColor, st.settings.penWidth⟩, nextId := st.nextId + 1 }
    ⟨generateId st.nextId, [p], st.settings.penColor, st.settings.penWidth⟩ hp rfl
  rw [h1, h2]
  constructor
  · unfold handleStrokeEnd
    rw [if_pos (show ({ st with
        activeStroke := some ⟨generateId st.nextId, [p] ++ moves,
          st.settings.penColor, st.settings.penWidth⟩,
        nextId := st.nextId + 1 } : TState).currentTool = "pen" from hp)]
    simp
  · simp only [List.length_cons, List.length_append]
    omega

/-- The state part of `finishCurrentAction`: the stroke, the rectangle
drag and the caret are cleared, the eraser drag origin, the tool and
the settings are untouched. -/
theorem finishCurrentAction_fields (st : TState) :
    (finishCurrentAction st).1.currentTool = st.currentTool ∧
    (finishCurrentAction st).1.settings = st.settings ∧
    (finishCurrentAction st).1.activeStroke = none ∧
    (finishCurrentAction st).1.activeRectStart = none ∧
    (finishCurrentAction st).1.activeTextPosition = none ∧
    (finishCurrentAction st).1.activeTextContent = "" ∧
    (finishCurrentAction st).1.activeEraserStart = st.activeEraserStart :=
  ⟨rfl, rfl, rfl, rfl, rfl, rfl, rfl⟩

/-- The output part of `finishCurrentAction`: the pending text is
committed exactly when a caret is open with non-empty content. -/
theorem finishCurrentAction_outs (st : TState) :
    (∀ pos, st.activeTextPosition = some pos → st.activeTextContent ≠ "" →
      (finishCurrentAction st).2 =
        [.complete (.element (.textEl (pendingText st pos)))]) ∧
    (st.activeTextContent = "" → (finishCurrentAction st).2 = []) ∧
    (st.activeTextPosition = none → (finishCurrentAction st).2 = []) := by
  refine ⟨?_, ?_, ?_⟩
  · intro pos hpos hne
    simp [finishCurrentAction, hpos, hne]
  · intro hc
    cases hpos : st.activeTextPosition <;> simp [finishCurrentAction, hpos, hc]
  · intro hpos
    simp [finishCurrentAction, hpos]

/-- Valid tool names route `setTool` through `finishCurrentAction`. -/
theorem setTool_valid (st : TState) (t : String)
    (hc : (["pen", "eraser", "rectangle", "text"] : List String).contains t = true) :
    setTool t st =
      ({ (finishCurrentAction st).1 with currentTool := t }, (finishCurrentAction st).2) := by
  unfold setTool
  rw [if_pos hc]

/-- C6 counterexample: switching from the eraser tool to the pen tool
in the middle of an eraser drag does not discard the drag — the eraser
drag origin survives the switch, so `setTool` does not force-finalize
every open gesture. -/
theorem C6_counterexample :
    (setTool "pen" eraserDragState).1.currentTool = "pen" ∧
    (setTool "pen" eraserDragState).1.activeEraserStart = some ⟨1, 1⟩ ∧
    (setTool "pen" eraserDragState).1.activeEraserStart ≠ none := by
  decide

/-- C6 (amended): `setTool` with a valid tool name first commits a
pending TextElement exactly when the accumulated text is non-empty, and
discards any in-progress stroke, rectangle drag and caret without
committing them, before the tool identity changes; the eraser drag
origin, however, is retained across the switch.  Invalid names change
nothing.  In particular, opening a caret, typing "hi" and switching to
the pen tool commits a TextElement with content "hi". -/
theorem C6_setTool_flush (st : TState) (t : String) :
    (t ∈ (["pen", "eraser", "rectangle", "text"] : List String) →
      (setTool t st).1.currentTool = t ∧
      (setTool t st).1.activeStroke = none ∧
      (setTool t st).1.activeRectStart = none ∧
      (setTool t st).1.activeTextPosition = none ∧
      (setTool t st).1.activeTextContent = "" ∧
      (setTool t st).1.activeEraserStart = st.activeEraserStart ∧
      (∀ pos, st.activeTextPosition = some pos → st.activeTextContent ≠ "" →
        (setTool t st).2 = [.complete (.element (.textEl (pendingText st pos)))]) ∧
      (st.activeTextContent = "" → (setTool t st).2 = []) ∧
      (st.activeTextPosition = none → (setTool t st).2 = [])) ∧
    (t ∉ (["pen", "eraser", "rectangle", "text"] : List String) → setTool t st = (st, [])) ∧
    (setTool "pen" hiState).1.currentTool = "pen" ∧
    (setTool "pen" hiState).2 =
      [.complete (.element (.textEl ⟨generateId 0, 3, 4, "hi", 16, "#000000", "sans-serif"⟩))] := by
  refine ⟨?_, ?_, by decide, by decide⟩
  · intro h
    have hc : (["pen", "eraser", "rectangle", "text"] : List String).contains t = true := by
      simp only [List.mem_cons, List.not_mem_nil, or_false] at h
      rcases h with rfl | rfl | rfl | rfl <;> rfl
    have hf := finishCurrentAction_fields st
    have ho := finishCurrentAction_outs st
    rw [setTool_valid st t hc]
    exact ⟨rfl, hf.2.2.1, hf.2.2.2.1, hf.2.2.2.2.1, hf.2.2.2.2.2.1, hf.2.2.2.2.2.2,
      ho.1, ho.2.1, ho.2.2⟩
  · intro h
    have hc : (["pen", "eraser", "rectangle", "text"] : List String).contains t = false := by
      cases hcc : (["pen", "eraser", "rectangle", "text"] : List String).contains t
      · rfl
      · exact absurd (List.elem_iff.mp hcc) h
    unfold setTool
    rw [if_neg (by rw [hc]; simp)]

/-- C6 witness: flushing the "ab" caret while switching away from the
text tool, the retained eraser origin, and an invalid tool name. -/
theorem C6_setTool_flush_witness :
    (setTool "pen" flushState).1.currentTool = "pen" ∧
    (setTool "pen" flushState).1.activeEraserStart = some ⟨9, 9⟩ ∧
    (setTool "pen" flushState).2 =
      [.complete (.element (.textEl (pendingText flushState ⟨2, 2⟩)))] ∧
    setTool "zap" flushState = (flushState, []) := by
  have h1 := (C6_setTool_flush flushState "pen").1 (by decide)
  refine ⟨h1.1, ?_, ?_, ?_⟩
  · rw [h1.2.2.2.2.2.1]
    rfl
  · exact h1.2.2.2.2.2.2.1 ⟨2, 2⟩ rfl (by decide)
  · exact (C6_setTool_flush flushState "zap").2.1 (by decide)

/-- C7 counterexample: in the middle of a rectangle drag (gesture open,
drag origin recorded) `getActivePreview` returns none rather than a
rectangle preview. -/
theorem C7_counterexample :
    (handleStrokeStart (mkPoint 1 1) rectToolState).1.activeRectStart = some ⟨1, 1⟩ ∧
    getActivePreview (handleStrokeStart (mkPoint 1 1) rectToolState).1 = none := by
  decide

/-- C7 (amended): `getActivePreview` returns a stroke preview while a
pen stroke is open, and a `textPreview` payload (with the accumulated
content, empty immediately after the caret opens — tagged `textPreview`,
not text-cursor) whenever a caret is open; in every other situation it
returns none — in particular during open rectangle and eraser drags,
whose origins are nonetheless recorded in the state. -/
theorem C7_getActivePreview (st : TState) (p : Point) (pos : P2) :
    (st.currentTool = "pen" →
      getActivePreview (handleStrokeStart p st).1 =
        some (.strokePrev ⟨generateId st.nextId, [p],
          st.settings.penColor, st.settings.penWidth⟩)) ∧
    (st.currentTool = "text" → st.activeStroke = none →
      getActivePreview (handleClick pos st).1 =
        some (.textPrev ⟨"", pos.x, pos.y, "", st.settings.fontSize,
          st.settings.textColor, st.settings.fontFamily⟩)) ∧
    (st.currentTool = "rectangle" → st.activeStroke = none → st.activeTextPosition = none →
      (handleStrokeStart p st).1.activeRectStart = some ⟨p.x, p.y⟩ ∧
      getActivePreview (handleStrokeStart p st).1 = none) ∧
    (st.currentTool = "eraser" → st.activeStroke = none → st.activeTextPosition = none →
      (handleStrokeStart p st).1.activeEraserStart = some ⟨p.x, p.y⟩ ∧
      getActivePreview (handleStrokeStart p st).1 = none) ∧
    (st.activeStroke = none → st.activeTextPosition = none →
      getActivePreview st = none) := by
  refine ⟨?_, ?_, ?_, ?_, ?_⟩
  · intro h
    unfold handleStrokeStart
    rw [if_pos h]
    rfl
  · intro ht hs
    unfold handleClick
    rw [if_pos ht]
    simp [getActivePreview, hs]
  · intro h hs htp
    unfold handleStrokeStart
    rw [h]
    rw [if_neg (by decide), if_neg (by decide), if_pos rfl]
    exact ⟨rfl, by simp [getActivePreview, hs, htp]⟩
  · intro h hs htp
    unfold handleStrokeStart
    rw [h]
    rw [if_neg (by decide), if_pos rfl]
    exact ⟨rfl, by simp [getActivePreview, hs, htp]⟩
  · intro hs htp
    simp [getActivePreview, hs, htp]

/-- C7 witness: the five situations at concrete states — open pen
stroke, freshly opened caret, open rectangle drag, open eraser drag,
and the idle state. -/
theorem C7_getActivePreview_witness :
    getActivePreview (handleStrokeStart (mkPoint 1 2) initTState).1 =
      some (.strokePrev ⟨generateId 0, [mkPoint 1 2], "#000000", 2⟩) ∧
    getActivePreview (handleClick ⟨3, 4⟩ textToolState).1 =
      some (.textPrev ⟨"", 3, 4, "", 16, "#000000", "sans-serif"⟩) ∧
    ((handleStrokeStart (mkPoint 1 2) rectToolState).1.activeRectStart = some ⟨1, 2⟩ ∧
      getActivePreview (handleStrokeStart (mkPoint 1 2) rectToolState).1 = none) ∧
    ((handleStrokeStart (mkPoint 1 2) eraserToolState).1.activeEraserStart = some ⟨1, 2⟩ ∧
      getActivePreview (handleStrokeStart (mkPoint 1 2) eraserToolState).1 = none) ∧
    getActivePreview initTState = none :=
  ⟨(C7_getActivePreview initTState (mkPoint 1 2) ⟨3, 4⟩).1 rfl,
   (C7_getActivePreview textToolState (mkPoint 1 2) ⟨3, 4⟩).2.1 rfl rfl,
   (C7_getActivePreview rectToolState (mkPoint 1 2) ⟨3, 4⟩).2.2.1 rfl rfl rfl,
   (C7_getActivePreview eraserToolState (mkPoint 1 2) ⟨3, 4⟩).2.2.2.1 rfl rfl rfl,
   (C7_getActivePreview initTState (mkPoint 1 2) ⟨3, 4⟩).2.2.2.2 rfl rfl⟩

/-- C8 counterexample: `setGridSettings` with the out-of-range spacing
500 is not ignored — the spacing becomes 500 and the prior grid
settings are not retained. -/
theorem C8_counterexample :
    (setGridSettings ⟨none, some 500, none, none⟩ initMState).gridSettings.spacing = 500 ∧
    (setGridSettings ⟨none, some 500, none, none⟩ initMState).gridSettings ≠
      initMState.gridSettings := by
  decide

/-- C8 (amended): `setGridSettings` shallow-merges the partial settings
unconditionally — an out-of-range spacing or opacity is applied, not
ignored; fields absent from the partial are retained; no history entry
is pushed and no error is signalled. -/
theorem C8_setGridSettings_unvalidated (st : MState) (p : PartialGridSettings) (s o : ℚ) :
    (p.spacing = some s → s ≤ 0 ∨ 200 < s →
      (setGridSettings p st).gridSettings.spacing = s) ∧
    (p.opacity = some o → o < 0 ∨ 1 < o →
      (setGridSettings p st).gridSettings.opacity = o) ∧
    (p.spacing = none →
      (setGridSettings p st).gridSettings.spacing = st.gridSettings.spacing) ∧
    (p.opacity = none →
      (setGridSettings p st).gridSettings.opacity = st.gridSettings.opacity) ∧
    (setGridSettings p st).elements = st.elements ∧
    (setGridSettings p st).hist = st.hist ∧
    (setGridSettings p st).idx = st.idx := by
  refine ⟨?_, ?_, ?_, ?_, rfl, rfl, rfl⟩
  · intro h _
    simp [setGridSettings, h]
  · intro h _
    simp [setGridSettings, h]
  · intro h
    simp [setGridSettings, h]
  · intro h
    simp [setGridSettings, h]

/-- C8 witness: spacing 500 and opacity 2 (both out of range) are
applied; an absent spacing is retained at its prior value 50. -/
theorem C8_setGridSettings_unvalidated_witness :
    (setGridSettings ⟨none, some 500, none, some 2⟩ initMState).gridSettings.spacing = 500 ∧
    (setGridSettings ⟨none, some 500, none, some 2⟩ initMState).gridSettings.opacity = 2 ∧
    (setGridSettings ⟨some "none", none, none, none⟩ initMState).gridSettings.spacing = 50 := by
  refine ⟨(C8_setGridSettings_unvalidated initMState ⟨none, some 500, none, some 2⟩ 500 2).1
      rfl (Or.inr (by decide)),
    (C8_setGridSettings_unvalidated initMState ⟨none, some 500, none, some 2⟩ 500 2).2.1
      rfl (Or.inr (by decide)), ?_⟩
  rw [(C8_setGridSettings_unvalidated initMState ⟨some "none", none, none, none⟩ 0 0).2.2.1 rfl]
  rfl

/-- C10 witness: a pen gesture with no moves commits a 2-point
stroke. -/
theorem C10_pen_stroke_two_points_witness :
    (handleStrokeEnd (mkPoint 9 9) (List.foldl (fun t m => (handleStrokeMove m t).1)
        (handleStrokeStart (mkPoint 1 1) initTState).1 [])).2 =
      [.complete (.element (.stroke ⟨generateId 0, [mkPoint 1 1, mkPoint 9 9],
        "#000000", 2⟩))] ∧
    2 ≤ ([mkPoint 1 1, mkPoint 9 9] : List Point).length :=
  C10_pen_stroke_two_points initTState rfl (mkPoint 1 1) (mkPoint 9 9) []

end Paper
